import Mathlib

/-!
Verification of the agent execution core of the `judge_agent` repository.

The development shallowly embeds the code that the verified properties are
about:

* `src/agent/core.py` — `AgentMemory`, `MongoAgentMemory`, and the
  `AuditAgent.execute` think–act–observe loop (message construction, the
  parallel tool dispatch, the frontend adapter layer, the final-report
  streaming, and the step budget check);
* `src/utils/sse_utils.py` — `SSEUtils.format_event` and
  `CacheSSEUtils.format_event`.

Python dictionaries that carry JSON-shaped payloads are embedded as
insertion-ordered association lists over a `Json` value type; `json.dumps`
is embedded for that type.  Asynchronous tool invocations are pure values
together with an explicit completion order, and `asyncio.gather` is embedded
as the reassembly of per-task results by task index from the completion
sequence.  External collaborators (the LLM backend, the argument parser
`json.loads`/`ast.literal_eval`, the tool implementations) are parameters of
the embedded loop.
-/

set_option maxHeartbeats 1000000

namespace JudgeAgent

/-- JSON-like values as produced by tools and stored in messages. -/
inductive Json where
  | str (s : String)
  | num (n : Int)
  | bool (b : Bool)
  | null
  | arr (elems : List Json)
  | obj (fields : List (String × Json))

mutual

/-- Boolean equality on `Json` (the automatic derivation does not handle
the nesting through `List`). -/
def jsonBeq : Json → Json → Bool
  | .str x, .str y => x == y
  | .num x, .num y => x == y
  | .bool x, .bool y => x == y
  | .null, .null => true
  | .arr xs, .arr ys => jsonBeqList xs ys
  | .obj fs, .obj gs => jsonBeqFields fs gs
  | _, _ => false

def jsonBeqList : List Json → List Json → Bool
  | [], [] => true
  | x :: xs, y :: ys => jsonBeq x y && jsonBeqList xs ys
  | _, _ => false

def jsonBeqFields : List (String × Json) → List (String × Json) → Bool
  | [], [] => true
  | (k, v) :: fs, (l, w) :: gs => k == l && jsonBeq v w && jsonBeqFields fs gs
  | _, _ => false

end

mutual

def jsonBeqSpec : (a b : Json) → (jsonBeq a b = true ↔ a = b)
  | .str x, .str y => by simp [jsonBeq]
  | .num x, .num y => by simp [jsonBeq]
  | .bool x, .bool y => by simp [jsonBeq]
  | .null, .null => by simp [jsonBeq]
  | .arr xs, .arr ys => by simp [jsonBeq, jsonBeqListSpec xs ys]
  | .obj fs, .obj gs => by simp [jsonBeq, jsonBeqFieldsSpec fs gs]
  | .str _, .num _ | .str _, .bool _ | .str _, .null | .str _, .arr _ | .str _, .obj _
  | .num _, .str _ | .num _, .bool _ | .num _, .null | .num _, .arr _ | .num _, .obj _
  | .bool _, .str _ | .bool _, .num _ | .bool _, .null | .bool _, .arr _ | .bool _, .obj _
  | .null, .str _ | .null, .num _ | .null, .bool _ | .null, .arr _ | .null, .obj _
  | .arr _, .str _ | .arr _, .num _ | .arr _, .bool _ | .arr _, .null | .arr _, .obj _
  | .obj _, .str _ | .obj _, .num _ | .obj _, .bool _ | .obj _, .null | .obj _, .arr _ =>
      by simp [jsonBeq]

def jsonBeqListSpec : (xs ys : List Json) → (jsonBeqList xs ys = true ↔ xs = ys)
  | [], [] => by simp [jsonBeqList]
  | x :: xs, y :: ys => by simp [jsonBeqList, jsonBeqSpec x y, jsonBeqListSpec xs ys]
  | [], _ :: _ | _ :: _, [] => by simp [jsonBeqList]

def jsonBeqFieldsSpec : (fs gs : List (String × Json)) → (jsonBeqFields fs gs = true ↔ fs = gs)
  | [], [] => by simp [jsonBeqFields]
  | (k, v) :: fs, (l, w) :: gs => by
      simp [jsonBeqFields, jsonBeqSpec v w, jsonBeqFieldsSpec fs gs, Prod.ext_iff, and_assoc]
  | [], _ :: _ | _ :: _, [] => by simp [jsonBeqFields]

end

instance : DecidableEq Json := fun a b => decidable_of_iff _ (jsonBeqSpec a b)

/-- A Python `dict` holding JSON-shaped data, as an insertion-ordered
association list (Python 3.7+ dicts preserve insertion order). -/
abbrev Dict := List (String × Json)

/-- Lookup `d[k]` / the value tested by `k in d`. -/
def lookupField (d : Dict) (k : String) : Option Json :=
  (d.find? (fun p => p.1 == k)).map (·.2)

/-- Membership `k in d` for a Python dict. -/
def hasKey (d : Dict) (k : String) : Bool := (lookupField d k).isSome

/-- Deletion `del d[k]` for a Python dict: the remaining keys keep their order. -/
def eraseKey (d : Dict) (k : String) : Dict := d.filter (fun p => p.1 != k)

/-- Python truthiness of a JSON value (`if v:`). -/
def truthy : Json → Bool
  | .str s => !s.isEmpty
  | .num n => n != 0
  | .bool b => b
  | .null => false
  | .arr xs => !xs.isEmpty
  | .obj fs => !fs.isEmpty

/-- Python truthiness of `d.get(k)`. -/
def getTruthy (o : Option Json) : Bool :=
  match o with
  | none => false
  | some v => truthy v

/-- Access `j.get(k)` when `j` is a dict.  (In the source a non-dict value here
would raise `AttributeError`; such ill-typed payloads are outside the
modelled domain.) -/
def jsonGet (j : Json) (k : String) : Option Json :=
  match j with
  | .obj fs => lookupField fs k
  | _ => none

/-- Escaping of one character inside a JSON string literal, as done by
`json.dumps` (with `ensure_ascii` irrelevant to the characters appearing in
the verified properties). -/
def escapeChar (c : Char) : String :=
  if c = '"' then "\\\""
  else if c = '\\' then "\\\\"
  else if c = '\n' then "\\n"
  else if c = '\t' then "\\t"
  else if c = '\r' then "\\r"
  else String.singleton c

def escapeString (s : String) : String :=
  s.data.foldl (fun acc c => acc ++ escapeChar c) ""

def quoteString (s : String) : String :=
  "\"" ++ escapeString s ++ "\""

mutual

/-- Serialization as by `json.dumps` with the default separators `", "` and `": "`. -/
def jsonDumps : Json → String
  | .str s => quoteString s
  | .num n => toString n
  | .bool b => cond b "true" "false"
  | .null => "null"
  | .arr xs => "[" ++ dumpsElems xs ++ "]"
  | .obj fs => "\x7b" ++ dumpsFields fs ++ "\x7d"

def dumpsElems : List Json → String
  | [] => ""
  | [x] => jsonDumps x
  | x :: y :: rest => jsonDumps x ++ ", " ++ dumpsElems (y :: rest)

def dumpsFields : List (String × Json) → String
  | [] => ""
  | [(k, v)] => quoteString k ++ ": " ++ jsonDumps v
  | (k, v) :: q :: rest => quoteString k ++ ": " ++ jsonDumps v ++ ", " ++ dumpsFields (q :: rest)

end

/-- One client-visible SSE event, as its `{type, content}` payload
(`src/utils/sse_utils.py`).  The wire string for an event is produced by
`SSEUtils.format_event`. -/
structure Event where
  type : String
  content : Json
deriving DecidableEq

namespace SSEUtils

/-- Embeds `SSEUtils.format_event` (sse_utils.py lines 167–180): wraps the payload
as `data: {"type": ..., "content": ...}\n\n`. -/
def format_event (event_type : String) (content : Json) : String :=
  "data: " ++ jsonDumps (Json.obj [("type", Json.str event_type), ("content", content)]) ++ "\n\n"

/-- Embeds `SSEUtils.log` with `start_time=None` (every call site in the loop
passes no start time, so no elapsed-time prefix is added). -/
def log (message : String) : String := format_event "log" (Json.str message)

def error (message : String) : String := format_event "error" (Json.str message)

def token (content : String) : String := format_event "token" (Json.str content)

def images (image_list : Json) : String := format_event "images" image_list

def violation (data : Json) : String := format_event "violation_data" data

end SSEUtils

/-- The durable per-session client history that `CacheSSEUtils` mirrors
events into (the `client_history` array of the MongoDB document). -/
structure MongoSSECache where
  clientHistory : List Event
deriving DecidableEq

namespace CacheSSEUtils

/-- Embeds `CacheSSEUtils.format_event` (sse_utils.py lines 244–256): produce the
wire string with `SSEUtils.format_event`, then fire-and-forget the durable
mirror write.  `cacheOk` is the outcome of that background write
(`_cache_async` swallows any exception, so a failed write leaves the
history unchanged); the returned wire string is computed before and
independently of it. -/
def format_event (cache : MongoSSECache) (cacheOk : Bool) (event_type : String)
    (content : Json) : String × MongoSSECache :=
  let sse_str := SSEUtils.format_event event_type content
  let cache' :=
    if cacheOk then
      { cache with clientHistory := cache.clientHistory ++ [⟨event_type, content⟩] }
    else cache
  (sse_str, cache')

end CacheSSEUtils

/-- One requested tool call inside an assistant message: opaque id, tool
name, and the raw argument blob (`tool_call.function.arguments`). -/
structure ToolCall where
  id : String
  name : String
  arguments : String
deriving DecidableEq

/-- The dict shape of a serialized OpenAI tool call (`model_dump` of an SDK
tool-call object).  The embedding represents an SDK tool-call object by this
record, so serialization is determined by it. -/
def toolCallJson (tc : ToolCall) : Json :=
  .obj [("id", .str tc.id), ("type", .str "function"),
        ("function", .obj [("name", .str tc.name), ("arguments", .str tc.arguments)])]

/-- The message dict built by `add_message` (core.py lines 29–39 and
97–124): start from `{"role": role}` and add each optional key only when
the corresponding argument is not `None`. -/
def buildMessage (role : String) (content : Option String)
    (tool_calls : Option (List ToolCall)) (tool_call_id : Option String) : Dict :=
  let msg : Dict := [("role", .str role)]
  let msg := match content with
    | some c => msg ++ [("content", Json.str c)]
    | none => msg
  let msg := match tool_calls with
    | some tcs => msg ++ [("tool_calls", Json.arr (tcs.map toolCallJson))]
    | none => msg
  match tool_call_id with
  | some i => msg ++ [("tool_call_id", Json.str i)]
  | none => msg

/-- In-process conversation memory (`AgentMemory`, core.py lines 20–56). -/
structure AgentMemory where
  messages : List Dict
  finished : Bool
  finalContent : String
deriving DecidableEq

namespace AgentMemory

def init : AgentMemory := ⟨[], false, ""⟩

/-- Embeds `AgentMemory.add_message` (core.py lines 29–39). -/
def add_message (m : AgentMemory) (role : String) (content : Option String)
    (tool_calls : Option (List ToolCall)) (tool_call_id : Option String) :
    AgentMemory :=
  { m with messages := m.messages ++ [buildMessage role content tool_calls tool_call_id] }

/-- Embeds `AgentMemory.mark_finished` (core.py lines 45–48). -/
def mark_finished (m : AgentMemory) (content : String) : AgentMemory :=
  { m with finished := true, finalContent := content }

def is_finished (m : AgentMemory) : Bool := m.finished

end AgentMemory

/-- Durable conversation memory (`MongoAgentMemory`, core.py lines 59–268):
an in-process message cache (`self._messages`) plus the MongoDB document's
`messages` array (the `$push` target), the in-process completion state, and
its durable copy (the `$set` targets of `mark_finished`). -/
structure MongoAgentMemory where
  cached : List Dict
  store : List Dict
  finished : Bool
  finalContent : String
  storeFinished : Bool
  storeFinalContent : String
deriving DecidableEq

namespace MongoAgentMemory

def init : MongoAgentMemory := ⟨[], [], false, "", false, ""⟩

/-- Embeds `MongoAgentMemory.add_message` (core.py lines 92–135): build the same
dict as the in-process backend (the tool-call serialization loop is the
identity on the record representation of an SDK tool-call object), append
it to the in-process cache, then `$push` it onto the document's `messages`
array. -/
def add_message (m : MongoAgentMemory) (role : String) (content : Option String)
    (tool_calls : Option (List ToolCall)) (tool_call_id : Option String) :
    MongoAgentMemory :=
  let msg := buildMessage role content tool_calls tool_call_id
  { m with cached := m.cached ++ [msg], store := m.store ++ [msg] }

/-- Embeds `MongoAgentMemory.mark_finished` (core.py lines 171–189). -/
def mark_finished (m : MongoAgentMemory) (content : String) : MongoAgentMemory :=
  { m with finished := true, finalContent := content,
           storeFinished := true, storeFinalContent := content }

def is_finished (m : MongoAgentMemory) : Bool := m.finished

/-- The appends performed by the per-call `memory.add_message` loop of the
OBSERVING phase, given the already-built message dicts. -/
def pushMessages (m : MongoAgentMemory) (msgs : List Dict) : MongoAgentMemory :=
  { m with cached := m.cached ++ msgs, store := m.store ++ msgs }

end MongoAgentMemory

/-- The behaviour of a registered tool: `await tool_instance.run(**fn_args)`
either returns a result dict or raises; `asyncio.gather` with
`return_exceptions=True` represents the latter as the captured exception
object, embedded as `Except.error` of its `str()`. -/
abbrev ToolFn := Json → Except String Dict

/-- The tool list handed to `AuditAgent.__init__`. -/
abbrev Registry := List (String × ToolFn)

/-- The assistant message returned by one model call
(`response.choices[0].message`): optional text content and an optional
ordered list of requested tool calls (`None` and the empty list are both
falsy for the branch on line 358 of core.py, but only `None` omits the
`tool_calls` key from the stored message). -/
structure Reply where
  content : Option String
  tool_calls : Option (List ToolCall)

/-- Python truthiness of `ai_message.tool_calls`. -/
def Reply.hasCalls (r : Reply) : Bool :=
  match r.tool_calls with
  | none => false
  | some tcs => !tcs.isEmpty

/-! ### Events emitted by the loop (core.py `yield sse.…` sites) -/

def logEvent (m : String) : Event := ⟨"log", .str m⟩

def errorEvent (m : String) : Event := ⟨"error", .str m⟩

def tokenEvent (s : String) : Event := ⟨"token", .str s⟩

def imagesEvent (v : Json) : Event := ⟨"images", v⟩

def violationEvent (v : Json) : Event := ⟨"violation_data", v⟩

def audioStartEvent : Event := ⟨"audio_text_start", .str ""⟩

def audioChunkEvent (c : Char) : Event := ⟨"audio_text_chunk", .str (String.singleton c)⟩

def reportStartEvent : Event := ⟨"final_report_start", .str ""⟩

def reportEndEvent : Event := ⟨"final_report_end", .str ""⟩

/-- The terminal step-budget warning (core.py line 502). -/
def warnEvent : Event := errorEvent "⚠️ 审核任务过于复杂，已达到最大推理步数，强制结束。"

def thinkLogEvent (n : Nat) : Event :=
  logEvent ("🤔 智能体正在进行第 " ++ toString n ++ " 轮思考...")

def parallelLogEvent (n : Nat) : Event :=
  logEvent ("⚡️ 启动并行执行: 将同时运行 " ++ toString n ++ " 个工具任务...")

def completeLogEvent (name : String) : Event := logEvent ("✅ [完成] 工具 " ++ name)

def finishLogEvent : Event := logEvent "📝 智能体已完成研判，正在生成最终报告..."

def startupLogEvent (n : Nat) : Event :=
  logEvent ("🤖 智能体启动，正在加载工具箱 (" ++ toString n ++ "个工具)...")

def parseFailEvent (blob : String) : Event := errorEvent ("❌ 参数解析失败: " ++ blob)

def notFoundEvent (err : String) : Event := errorEvent ("❌ " ++ err)

def toolExcEvent (name msg : String) : Event :=
  errorEvent ("❌ 工具 " ++ name ++ " 执行异常: " ++ msg)

def thinkTokenEvent (c : String) : Event := tokenEvent ("\n> **思考**: " ++ c ++ "\n\n")

/-- Python `str()` applied to a JSON value interpolated into an f-string;
exact for strings (the only case the verified properties inspect). -/
def pyStr (j : Json) : String :=
  match j with
  | .str s => s
  | j => jsonDumps j

/-- The per-call start log (core.py lines 384–391). -/
def startLogMsg (fn_name : String) (args : Json) : String :=
  if fn_name = "web_search" then
    let q := match jsonGet args "query" with
      | some v => pyStr v
      | none => "无词"
    let img := if getTruthy (jsonGet args "image_path") then "有图" else "无图"
    "🚀 [启动] 搜索: " ++ q ++ " (" ++ img ++ ")"
  else
    "🚀 [启动] 工具: " ++ fn_name

/-! ### Frontend adapter layer (core.py lines 444–468) -/

/-- The `frontend_data` payload built for a positive violation check. -/
def violationPayload (v : Json) : Json :=
  .obj [("is_violation", .bool true),
        ("time_anchors", (jsonGet v "segments").getD (.arr []))]

/-- The frontend interaction adapter applied to one successful tool result
envelope (core.py lines 444–468): emits an image-preview event and deletes
the `preview_images` key; emits the `audio_text_start`/`audio_text_chunk`
stream when `corrected_text` is present (the key is not deleted); emits a
`violation_data` event when `violation_check.is_violation` is truthy (the
key is not deleted).  A non-string `corrected_text` value would raise in
the source and is outside the modelled domain. -/
def frontendAdapt (result_dict : Dict) : List Event × Dict :=
  let step1 : List Event × Dict :=
    match lookupField result_dict "preview_images" with
    | some v => ([imagesEvent v], eraseKey result_dict "preview_images")
    | none => ([], result_dict)
  let d := step1.2
  let evB : List Event :=
    match lookupField d "corrected_text" with
    | some (.str t) => audioStartEvent :: t.data.map audioChunkEvent
    | some _ => []
    | none => []
  let evC : List Event :=
    match lookupField d "violation_check" with
    | some v =>
        if getTruthy (jsonGet v "is_violation") then [violationEvent (violationPayload v)]
        else []
    | none => []
  (step1.1 ++ evB ++ evC, d)

/-! ### ACTING / OBSERVING: parallel dispatch and result merge
(core.py lines 363–478) -/

/-- One entry of `tool_call_meta` (core.py lines 397–410). -/
structure MetaInfo where
  valid : Bool
  tc : ToolCall
  name : String
  error : String
deriving DecidableEq

/-- The preparation loop over `ai_message.tool_calls` (core.py lines
369–410): per call, parse the argument blob (`json.loads` with the
`ast.literal_eval` fallback, embedded as the oracle `parse`; on failure an
error event is emitted and the call is skipped with `continue`), emit the
start log, then either schedule the coroutine (a task entry carrying its
eventual outcome) or record a `None` placeholder with an invalid meta. -/
def prepareCalls (tools : String → Option ToolFn) (parse : String → Option Json) :
    List ToolCall → List Event × List (Option (Except String Dict)) × List MetaInfo
  | [] => ([], [], [])
  | tc :: rest =>
    let r := prepareCalls tools parse rest
    match parse tc.arguments with
    | none => (parseFailEvent tc.arguments :: r.1, r.2.1, r.2.2)
    | some args =>
      let ev := logEvent (startLogMsg tc.name args)
      match tools tc.name with
      | some f =>
          (ev :: r.1, some (f args) :: r.2.1, ⟨true, tc, tc.name, ""⟩ :: r.2.2)
      | none =>
          (ev :: r.1, none :: r.2.1,
           ⟨false, tc, tc.name, "Tool " ++ tc.name ++ " not found"⟩ :: r.2.2)

/-- The completion sequence of a set of concurrent tasks: task indices in
the order they finish, each paired with its outcome. -/
def completeInOrder (tasks : List α) (order : List Nat) : List (Nat × α) :=
  order.filterMap fun i => (tasks.get? i).map fun t => (i, t)

/-- Embeds `asyncio.gather`: results are stored at the slot of their originating
task index as tasks complete, and read out in task order — not in
completion order. -/
def gather (tasks : List α) (order : List Nat) : List α :=
  (List.range tasks.length).filterMap fun i =>
    ((completeInOrder tasks order).find? fun p => p.1 == i).map (·.2)

/-- Computes `json.dumps({"error": msg})`. -/
def errorEnvelope (msg : String) : String := jsonDumps (.obj [("error", .str msg)])

/-- The result-processing loop (core.py lines 425–478): walk
`tool_call_meta` in original request order, consuming one gathered result
per valid entry (`next(result_iter)`); emit the per-call events and build
the tool-role message for each call.  (The `([], [])` fallback for a valid
entry with no remaining results is unreachable for aligned inputs — the
source would raise `StopIteration` there.) -/
def processMetas : List MetaInfo → List (Except String Dict) → List Event × List Dict
  | [], _ => ([], [])
  | meta :: metas, results =>
    if meta.valid then
      match results with
      | [] => ([], [])
      | res :: rest =>
        let step : List Event × String :=
          match res with
          | .error e => ([toolExcEvent meta.name e], errorEnvelope e)
          | .ok result_dict =>
            let a := frontendAdapt result_dict
            (a.1 ++ [completeLogEvent meta.name], jsonDumps (.obj a.2))
        let r := processMetas metas rest
        (step.1 ++ r.1,
         buildMessage "tool" (some step.2) none (some meta.tc.id) :: r.2)
    else
      let r := processMetas metas results
      (notFoundEvent meta.error :: r.1,
       buildMessage "tool" (some (errorEnvelope meta.error)) none (some meta.tc.id) :: r.2)

/-- The whole ACTING→OBSERVING body for one non-empty `tool_calls` list
(core.py lines 363–478), parametrised by the completion order of the
concurrently running tasks: the events emitted after the parallel-start
log, and the tool-role messages appended to memory, in that order. -/
def actObserve (tools : String → Option ToolFn) (parse : String → Option Json)
    (tcs : List ToolCall) (order : List Nat) : List Event × List Dict :=
  let p := prepareCalls tools parse tcs
  if p.2.1.isEmpty then (p.1, [])
  else
    let results := gather (p.2.1.filterMap id) order
    let r := processMetas p.2.2 results
    (p.1 ++ r.1, r.2)

/-! ### The agent loop (core.py lines 280–502) -/

/-- The observable state of one session: the (durable) conversation memory,
the events yielded to the client so far, and the number of model calls
made. -/
structure LoopState where
  memory : MongoAgentMemory
  events : List Event
  modelCalls : Nat
deriving DecidableEq

def emit (st : LoopState) (e : Event) : LoopState :=
  { st with events := st.events ++ [e] }

def emitAll (st : LoopState) (evs : List Event) : LoopState :=
  { st with events := st.events ++ evs }

/-- One iteration of the while loop (core.py lines 333–498) with the
already-incremented step counter: the THINKING log, the model call
(`reply`), the assistant append, and then either the ACTING/OBSERVING
branch or the final-answer branch. -/
def runStep (tools : String → Option ToolFn) (parse : String → Option Json)
    (reply : Reply) (order : List Nat) (stepCount : Nat) (st : LoopState) : LoopState :=
  let st := emit st (thinkLogEvent stepCount)
  let st := { st with modelCalls := st.modelCalls + 1 }
  let st := { st with
    memory := st.memory.add_message "assistant" reply.content reply.tool_calls none }
  if reply.hasCalls then
    let tcs := reply.tool_calls.getD []
    let st :=
      match reply.content with
      | some c => if c.isEmpty then st else emit st (thinkTokenEvent c)
      | none => st
    let st := emit st (parallelLogEvent tcs.length)
    let r := actObserve tools parse tcs order
    let st := emitAll st r.1
    { st with memory := st.memory.pushMessages r.2 }
  else
    let final_content := reply.content.getD ""
    let st := { st with memory := st.memory.mark_finished final_content }
    let st := emit st finishLogEvent
    if final_content.isEmpty then st
    else
      let st := emit st reportStartEvent
      let st := emitAll st (final_content.data.map fun c => tokenEvent (String.singleton c))
      emit st reportEndEvent

/-- Embeds `max_steps` (core.py line 330). -/
def maxSteps : Nat := 10

/-- The while loop (core.py line 333): iterate while the memory is not
finished and the step counter is below the budget; the remaining budget is
the structural fuel.  `script n` is the model's reply on the n-th THINKING
phase (1-based) and `orders n` the completion order of that step's tool
tasks. -/
def execLoop (tools : String → Option ToolFn) (parse : String → Option Json)
    (script : Nat → Reply) (orders : Nat → List Nat) :
    Nat → Nat → LoopState → LoopState × Nat
  | 0, stepCount, st => (st, stepCount)
  | fuel + 1, stepCount, st =>
    if st.memory.is_finished then (st, stepCount)
    else
      execLoop tools parse script orders fuel (stepCount + 1)
        (runStep tools parse (script (stepCount + 1)) (orders (stepCount + 1)) (stepCount + 1) st)

/-- The agent with its registered toolbox (`AuditAgent.__init__`). -/
structure AuditAgent where
  tools : Registry

/-- Lookup `self.tools_map[name]` for the dict comprehension
`{t.name: t for t in tools}` (a later duplicate name overwrites an earlier
one). -/
def AuditAgent.toolsMap (a : AuditAgent) (name : String) : Option ToolFn :=
  (a.tools.reverse.find? fun p => p.1 == name).map (·.2)

/-- Computes `len(self.tools_map)`: the number of distinct registered names. -/
def AuditAgent.toolCount (a : AuditAgent) : Nat := (a.tools.map (·.1)).eraseDups.length

/-- The session state right before the first THINKING phase (core.py lines
313–331): the system and user priming messages are appended and the startup
log has been yielded. -/
def initialState (agent : AuditAgent) (systemPrompt filePath fileType : String) : LoopState :=
  let memory := MongoAgentMemory.init.add_message "system" (some systemPrompt) none none
  let memory := memory.add_message "user"
    (some ("请开始审核该文件。文件路径: " ++ filePath ++ ", 类型: " ++ fileType)) none none
  ⟨memory, [startupLogEvent agent.toolCount], 0⟩

/-- Embeds `AuditAgent.execute` (core.py lines 280–502) for one session, with the
external collaborators as parameters: `parse` is the argument parser,
`script` the model backend's replies, `orders` the completion orders of the
parallel tool tasks, and `systemPrompt` the text of
`judge_agent.agent.prompts.SYSTEM_PROMPT` (that module is not part of the
analysed sources; no verified property depends on its text).  The replay
block guarded by `if False:` on line 289 is dead code and elided.  Returns
the final session state and the final `step_count`. -/
def AuditAgent.execute (agent : AuditAgent) (parse : String → Option Json)
    (script : Nat → Reply) (orders : Nat → List Nat)
    (systemPrompt filePath fileType : String) : LoopState × Nat :=
  let r := execLoop agent.toolsMap parse script orders maxSteps 0
    (initialState agent systemPrompt filePath fileType)
  if maxSteps ≤ r.2 then (emit r.1 warnEvent, r.2) else r

/-! ### Derived characterizations used in theorem statements -/

/-- The tool-role message that the loop folds one requested call into:
`none` when the argument blob fails to parse (the call is skipped by
`continue`), otherwise the uniform error envelope (unknown tool or raised
exception) or the adapted, serialized result envelope. -/
def expectedToolMsg (tools : String → Option ToolFn) (parse : String → Option Json)
    (tc : ToolCall) : Option Dict :=
  match parse tc.arguments with
  | none => none
  | some args =>
    match tools tc.name with
    | none =>
        some (buildMessage "tool"
          (some (errorEnvelope ("Tool " ++ tc.name ++ " not found"))) none (some tc.id))
    | some f =>
      match f args with
      | .error e => some (buildMessage "tool" (some (errorEnvelope e)) none (some tc.id))
      | .ok d =>
          some (buildMessage "tool"
            (some (jsonDumps (.obj (frontendAdapt d).2))) none (some tc.id))

/-- Every pending task index eventually completes: the completion order
mentions each index below `n`. -/
def covers (order : List Nat) (n : Nat) : Prop := ∀ i, i < n → i ∈ order

instance (order : List Nat) (n : Nat) : Decidable (covers order n) :=
  Nat.decidableBallLT n fun i _ => i ∈ order

/-- The number of scheduled coroutine tasks for one `tool_calls` list. -/
def validCount (tools : String → Option ToolFn) (parse : String → Option Json)
    (tcs : List ToolCall) : Nat :=
  ((prepareCalls tools parse tcs).2.1.filterMap id).length

/-- The optional reasoning-token event emitted when assistant content
accompanies tool calls (core.py lines 360–361). -/
def contentTokEvents : Option String → List Event
  | some c => if c.isEmpty then [] else [thinkTokenEvent c]
  | none => []

/-- The session's last emitted event exists and is not error-typed — the
shape left behind by the final-answer branch, used to tell the step-budget
warning apart from every other terminal state. -/
def lastEventSafe (st : LoopState) : Prop :=
  ∃ e, st.events.getLast? = some e ∧ e.type ≠ "error"

/-! ### Concrete collaborators for closed evaluations -/

/-- A concrete argument parser: only the blob `"ok"` parses (to `{}`). -/
def parse0 : String → Option Json :=
  fun s => if s = "ok" then some (.obj []) else none

/-- A tool that returns a plain result envelope. -/
def okTool : ToolFn := fun _ => .ok [("answer", .num 42)]

/-- A tool whose invocation raises. -/
def boomTool : ToolFn := fun _ => .error "boom failed"

def reg0 : Registry := [("mytool", okTool), ("boom", boomTool)]

def agent0 : AuditAgent := ⟨reg0⟩

def tcGood : ToolCall := ⟨"id1", "mytool", "ok"⟩

def tcBoom : ToolCall := ⟨"id2", "boom", "ok"⟩

def tcGood2 : ToolCall := ⟨"id3", "mytool", "ok"⟩

def tcFoo : ToolCall := ⟨"id4", "foo", "ok"⟩

def tcBad : ToolCall := ⟨"id5", "mytool", "BAD"⟩

/-- A model that answers immediately with a final report. -/
def finalScript : Nat → Reply := fun _ => ⟨some "No violation found.", none⟩

/-- A model that answers immediately with an empty final report. -/
def emptyFinalScript : Nat → Reply := fun _ => ⟨some "", none⟩

/-- A model that requests one valid tool call on every turn. -/
def toolScript : Nat → Reply := fun _ => ⟨none, some [tcGood]⟩

/-- A model that requests a valid tool call on turns 1–9 and gives its
final answer on turn 10 — exactly the `max_steps`-th step. -/
def lateFinishScript : Nat → Reply :=
  fun n => if n < 10 then ⟨none, some [tcGood]⟩ else ⟨some "done", none⟩

/-- A model whose first turn requests one call with an unparseable
argument blob, then finishes. -/
def badCallScript : Nat → Reply :=
  fun n => if n = 1 then ⟨none, some [tcBad]⟩ else ⟨some "done", none⟩

def zeroOrders : Nat → List Nat := fun _ => [0]

/-- An arbitrary concrete loop state for witness instantiations. -/
def st0 : LoopState := ⟨MongoAgentMemory.init, [], 0⟩

/-! ## Helper lemmas -/

theorem filterMap_range_getElem (l : List α) :
    (List.range l.length).filterMap (fun i => l.get? i) = l := by
  induction l with
  | nil => rfl
  | cons a t ih =>
    rw [List.length_cons, List.range_succ_eq_map, List.filterMap_cons, List.filterMap_map]
    simp only [List.get?_cons_zero, List.get?_cons_succ, Function.comp_def]
    rw [ih]

theorem get?_of_mem_completeInOrder {tasks : List α} {order : List Nat} {p : Nat × α}
    (h : p ∈ completeInOrder tasks order) : tasks.get? p.1 = some p.2 := by
  unfold completeInOrder at h
  rw [List.mem_filterMap] at h
  obtain ⟨i, _, hi⟩ := h
  cases hg : tasks.get? i with
  | none => rw [hg] at hi; cases hi
  | some t =>
    rw [hg] at hi
    cases hi
    exact hg

/-- Lemma: `asyncio.gather` returns the outcomes in task order whenever every task
eventually completes, whatever the completion order was. -/
theorem gather_covers {tasks : List α} {order : List Nat}
    (h : ∀ i, i < tasks.length → i ∈ order) : gather tasks order = tasks := by
  unfold gather
  have key : ∀ i ∈ List.range tasks.length,
      (((completeInOrder tasks order).find? fun p => p.1 == i).map (·.2)) = tasks.get? i := by
    intro i hi
    rw [List.mem_range] at hi
    cases hg : tasks.get? i with
    | none =>
      exact absurd (List.get?_eq_none.mp hg) (by omega)
    | some t =>
      have hmem : (i, t) ∈ completeInOrder tasks order := by
        unfold completeInOrder
        rw [List.mem_filterMap]
        exact ⟨i, h i hi, by rw [hg]; rfl⟩
      have hfind : (((completeInOrder tasks order).find? fun p => p.1 == i)).isSome :=
        List.find?_isSome.mpr ⟨(i, t), hmem, by simp⟩
      obtain ⟨q, hq⟩ := Option.isSome_iff_exists.mp hfind
      have hq1 : q.1 = i := by
        have := List.find?_some hq
        simpa using this
      have hq2 := get?_of_mem_completeInOrder (List.mem_of_find?_eq_some hq)
      rw [hq1, hg] at hq2
      rw [hq]
      cases hq2
      rfl
  rw [List.filterMap_congr key]
  exact filterMap_range_getElem tasks

/-- Walking `tool_call_meta` while consuming the gathered results of the
scheduled tasks produces exactly one tool-role message per requested call
that survived argument parsing, in the original request order. -/
theorem processMetas_prepare (tools : String → Option ToolFn) (parse : String → Option Json) :
    ∀ tcs : List ToolCall,
      (processMetas (prepareCalls tools parse tcs).2.2
        ((prepareCalls tools parse tcs).2.1.filterMap id)).2 =
      tcs.filterMap (expectedToolMsg tools parse) := by
  intro tcs
  induction tcs with
  | nil => rfl
  | cons tc rest ih =>
    simp only [prepareCalls]
    cases hp : parse tc.arguments with
    | none =>
      simp only [List.filterMap_cons, expectedToolMsg, hp]
      exact ih
    | some args =>
      cases htool : tools tc.name with
      | some f =>
        cases hrun : f args with
        | error e =>
          simp only [List.filterMap_cons, id, processMetas, expectedToolMsg, hp, htool, hrun]
          simp [ih]
        | ok d =>
          simp only [List.filterMap_cons, id, processMetas, expectedToolMsg, hp, htool, hrun]
          simp [ih]
      | none =>
        simp only [List.filterMap_cons, id, processMetas, expectedToolMsg, hp, htool]
        simp [ih]

theorem filterMap_expected_nil_of_tasks_nil (tools : String → Option ToolFn)
    (parse : String → Option Json) :
    ∀ tcs : List ToolCall, (prepareCalls tools parse tcs).2.1 = [] →
      tcs.filterMap (expectedToolMsg tools parse) = [] := by
  intro tcs
  induction tcs with
  | nil => intro _; rfl
  | cons tc rest ih =>
    intro h
    simp only [prepareCalls] at h
    cases hp : parse tc.arguments with
    | none =>
      rw [hp] at h
      simp only [List.filterMap_cons, expectedToolMsg, hp]
      exact ih h
    | some args =>
      rw [hp] at h
      cases htool : tools tc.name <;> rw [htool] at h <;> cases h

/-- The tool-role messages produced by one ACTING→OBSERVING phase: exactly
one per call whose arguments parse, in the original request order,
independently of the completion order of the concurrent tasks. -/
theorem actObserve_msgs {tools : String → Option ToolFn} {parse : String → Option Json}
    {tcs : List ToolCall} {order : List Nat}
    (h : covers order (validCount tools parse tcs)) :
    (actObserve tools parse tcs order).2 = tcs.filterMap (expectedToolMsg tools parse) := by
  unfold actObserve
  by_cases he : (prepareCalls tools parse tcs).2.1.isEmpty
  · simp only [he, if_true]
    exact (filterMap_expected_nil_of_tasks_nil tools parse tcs (List.isEmpty_iff.mp he)).symm
  · simp only [he, if_false, Bool.false_eq_true]
    rw [gather_covers h]
    exact processMetas_prepare tools parse tcs

theorem expected_tool_call_id {tools : String → Option ToolFn} {parse : String → Option Json}
    {tc : ToolCall} {m : Dict} (h : expectedToolMsg tools parse tc = some m) :
    lookupField m "tool_call_id" = some (.str tc.id) := by
  cases hp : parse tc.arguments with
  | none => simp only [expectedToolMsg, hp] at h; cases h
  | some args =>
    cases htool : tools tc.name with
    | none => simp only [expectedToolMsg, hp, htool] at h; cases h; rfl
    | some f =>
      cases hrun : f args with
      | error e => simp only [expectedToolMsg, hp, htool, hrun] at h; cases h; rfl
      | ok d => simp only [expectedToolMsg, hp, htool, hrun] at h; cases h; rfl

theorem expected_role {tools : String → Option ToolFn} {parse : String → Option Json}
    {tc : ToolCall} {m : Dict} (h : expectedToolMsg tools parse tc = some m) :
    lookupField m "role" = some (.str "tool") := by
  cases hp : parse tc.arguments with
  | none => simp only [expectedToolMsg, hp] at h; cases h
  | some args =>
    cases htool : tools tc.name with
    | none => simp only [expectedToolMsg, hp, htool] at h; cases h; rfl
    | some f =>
      cases hrun : f args with
      | error e => simp only [expectedToolMsg, hp, htool, hrun] at h; cases h; rfl
      | ok d => simp only [expectedToolMsg, hp, htool, hrun] at h; cases h; rfl

theorem parseFail_mem_prepare (tools : String → Option ToolFn) (parse : String → Option Json) :
    ∀ (tcs : List ToolCall) (tc : ToolCall), tc ∈ tcs → parse tc.arguments = none →
      parseFailEvent tc.arguments ∈ (prepareCalls tools parse tcs).1 := by
  intro tcs
  induction tcs with
  | nil => intro tc h; cases h
  | cons a rest ih =>
    intro tc hmem hp
    rw [List.mem_cons] at hmem
    rcases hmem with rfl | hmem
    · simp only [prepareCalls, hp]
      exact List.mem_cons_self _ _
    · have hrec := ih tc hmem hp
      simp only [prepareCalls]
      cases hpa : parse a.arguments with
      | none => exact List.mem_cons_of_mem _ hrec
      | some args =>
        cases htool : tools a.name <;> exact List.mem_cons_of_mem _ hrec

theorem mem_actObserve_events {tools : String → Option ToolFn} {parse : String → Option Json}
    {tcs : List ToolCall} {order : List Nat} {e : Event}
    (h : e ∈ (prepareCalls tools parse tcs).1) :
    e ∈ (actObserve tools parse tcs order).1 := by
  unfold actObserve
  by_cases he : (prepareCalls tools parse tcs).2.1.isEmpty
  · simpa only [he, if_true] using h
  · simp only [he, if_false, Bool.false_eq_true]
    exact List.mem_append_left _ h

/-! ### One-step lemmas for the loop body -/

theorem hasCalls_of_ne_nil {rc : Option String} {tcs : List ToolCall} (h : tcs ≠ []) :
    (Reply.mk rc (some tcs)).hasCalls = true := by
  cases tcs with
  | nil => exact absurd rfl h
  | cons a l => rfl

theorem runStep_modelCalls (tools : String → Option ToolFn) (parse : String → Option Json)
    (reply : Reply) (order : List Nat) (n : Nat) (st : LoopState) :
    (runStep tools parse reply order n st).modelCalls = st.modelCalls + 1 := by
  rcases reply with ⟨rc, rtc⟩
  unfold runStep
  by_cases h : (Reply.mk rc rtc).hasCalls
  · rw [if_pos h]
    cases rc with
    | none => simp [emit, emitAll, MongoAgentMemory.pushMessages]
    | some c =>
      by_cases hc : c.isEmpty <;>
        simp [emit, emitAll, MongoAgentMemory.pushMessages, hc]
  · rw [if_neg h]
    by_cases hf : (rc.getD "").isEmpty <;>
      simp [emit, emitAll, MongoAgentMemory.mark_finished, hf]

theorem runStep_tool_cached (tools : String → Option ToolFn) (parse : String → Option Json)
    (rc : Option String) {tcs : List ToolCall} (order : List Nat) (n : Nat) (st : LoopState)
    (hne : tcs ≠ []) :
    (runStep tools parse ⟨rc, some tcs⟩ order n st).memory.cached =
      st.memory.cached ++ buildMessage "assistant" rc (some tcs) none ::
        (actObserve tools parse tcs order).2 := by
  unfold runStep
  rw [if_pos (hasCalls_of_ne_nil hne)]
  cases rc with
  | none =>
    simp [emit, emitAll, MongoAgentMemory.pushMessages, MongoAgentMemory.add_message]
  | some c =>
    by_cases hc : c.isEmpty <;>
      simp [emit, emitAll, MongoAgentMemory.pushMessages, MongoAgentMemory.add_message, hc]

theorem runStep_tool_finished (tools : String → Option ToolFn) (parse : String → Option Json)
    (rc : Option String) {tcs : List ToolCall} (order : List Nat) (n : Nat) (st : LoopState)
    (hne : tcs ≠ []) :
    (runStep tools parse ⟨rc, some tcs⟩ order n st).memory.finished = st.memory.finished := by
  unfold runStep
  rw [if_pos (hasCalls_of_ne_nil hne)]
  cases rc with
  | none =>
    simp [emit, emitAll, MongoAgentMemory.pushMessages, MongoAgentMemory.add_message]
  | some c =>
    by_cases hc : c.isEmpty <;>
      simp [emit, emitAll, MongoAgentMemory.pushMessages, MongoAgentMemory.add_message, hc]

theorem runStep_tool_events (tools : String → Option ToolFn) (parse : String → Option Json)
    (rc : Option String) {tcs : List ToolCall} (order : List Nat) (n : Nat) (st : LoopState)
    (hne : tcs ≠ []) :
    (runStep tools parse ⟨rc, some tcs⟩ order n st).events =
      st.events ++ thinkLogEvent n :: (contentTokEvents rc ++
        parallelLogEvent tcs.length :: (actObserve tools parse tcs order).1) := by
  unfold runStep
  rw [if_pos (hasCalls_of_ne_nil hne)]
  cases rc with
  | none =>
    simp [emit, emitAll, MongoAgentMemory.pushMessages, MongoAgentMemory.add_message,
      contentTokEvents]
  | some c =>
    by_cases hc : c.isEmpty <;>
      simp [emit, emitAll, MongoAgentMemory.pushMessages, MongoAgentMemory.add_message,
        contentTokEvents, hc]

theorem runStep_final_cached (tools : String → Option ToolFn) (parse : String → Option Json)
    (rc : Option String) (order : List Nat) (n : Nat) (st : LoopState) :
    (runStep tools parse ⟨rc, none⟩ order n st).memory.cached =
      st.memory.cached ++ [buildMessage "assistant" rc none none] := by
  unfold runStep
  rw [if_neg (by simp [Reply.hasCalls])]
  by_cases hf : (rc.getD "").isEmpty <;>
    simp [emit, emitAll, MongoAgentMemory.mark_finished, MongoAgentMemory.add_message, hf]

theorem runStep_final_finished (tools : String → Option ToolFn) (parse : String → Option Json)
    (rc : Option String) (order : List Nat) (n : Nat) (st : LoopState) :
    (runStep tools parse ⟨rc, none⟩ order n st).memory.finished = true := by
  unfold runStep
  rw [if_neg (by simp [Reply.hasCalls])]
  by_cases hf : (rc.getD "").isEmpty <;>
    simp [emit, emitAll, MongoAgentMemory.mark_finished, MongoAgentMemory.add_message, hf]

theorem runStep_final_finalContent (tools : String → Option ToolFn) (parse : String → Option Json)
    (rc : Option String) (order : List Nat) (n : Nat) (st : LoopState) :
    (runStep tools parse ⟨rc, none⟩ order n st).memory.finalContent = rc.getD "" := by
  unfold runStep
  rw [if_neg (by simp [Reply.hasCalls])]
  by_cases hf : (rc.getD "").isEmpty <;>
    simp [emit, emitAll, MongoAgentMemory.mark_finished, MongoAgentMemory.add_message, hf]

theorem runStep_final_events (tools : String → Option ToolFn) (parse : String → Option Json)
    (rc : Option String) (order : List Nat) (n : Nat) (st : LoopState) :
    (runStep tools parse ⟨rc, none⟩ order n st).events =
      st.events ++ thinkLogEvent n :: finishLogEvent ::
        (if (rc.getD "").isEmpty then []
         else reportStartEvent ::
           ((rc.getD "").data.map fun c => tokenEvent (String.singleton c)) ++
             [reportEndEvent]) := by
  unfold runStep
  rw [if_neg (by simp [Reply.hasCalls])]
  by_cases hf : (rc.getD "").isEmpty <;>
    simp [emit, emitAll, MongoAgentMemory.mark_finished, MongoAgentMemory.add_message, hf]

theorem reply_shape_of_hasCalls {r : Reply} (h : r.hasCalls = true) :
    ∃ rc tcs, r = ⟨rc, some tcs⟩ ∧ tcs ≠ [] := by
  rcases r with ⟨rc, rtc⟩
  cases rtc with
  | none => simp [Reply.hasCalls] at h
  | some l =>
    cases l with
    | nil => simp [Reply.hasCalls] at h
    | cons a t => exact ⟨rc, a :: t, rfl, by simp⟩

theorem runStep_noCalls_finished (tools : String → Option ToolFn) (parse : String → Option Json)
    {reply : Reply} (order : List Nat) (n : Nat) (st : LoopState)
    (h : reply.hasCalls = false) :
    (runStep tools parse reply order n st).memory.finished = true := by
  unfold runStep
  rw [if_neg (by simp [h])]
  by_cases hf : (reply.content.getD "").isEmpty <;>
    simp [emit, emitAll, MongoAgentMemory.mark_finished, MongoAgentMemory.add_message, hf]

theorem runStep_noCalls_events (tools : String → Option ToolFn) (parse : String → Option Json)
    {reply : Reply} (order : List Nat) (n : Nat) (st : LoopState)
    (h : reply.hasCalls = false) :
    (runStep tools parse reply order n st).events =
      st.events ++ thinkLogEvent n :: finishLogEvent ::
        (if (reply.content.getD "").isEmpty then []
         else reportStartEvent ::
           ((reply.content.getD "").data.map fun c => tokenEvent (String.singleton c)) ++
             [reportEndEvent]) := by
  unfold runStep
  rw [if_neg (by simp [h])]
  by_cases hf : (reply.content.getD "").isEmpty <;>
    simp [emit, emitAll, MongoAgentMemory.mark_finished, MongoAgentMemory.add_message, hf]

/-! ### Loop-level lemmas -/

theorem execLoop_finished (tools : String → Option ToolFn) (parse : String → Option Json)
    (script : Nat → Reply) (orders : Nat → List Nat) (fuel sc : Nat) (st : LoopState)
    (h : st.memory.finished = true) :
    execLoop tools parse script orders fuel sc st = (st, sc) := by
  cases fuel with
  | zero => rfl
  | succ f => simp [execLoop, MongoAgentMemory.is_finished, h]

theorem execLoop_succ (tools : String → Option ToolFn) (parse : String → Option Json)
    (script : Nat → Reply) (orders : Nat → List Nat) (f sc : Nat) (st : LoopState)
    (h : st.memory.finished = false) :
    execLoop tools parse script orders (f + 1) sc st =
      execLoop tools parse script orders f (sc + 1)
        (runStep tools parse (script (sc + 1)) (orders (sc + 1)) (sc + 1) st) := by
  have hnf : st.memory.is_finished = false := h
  simp [execLoop, hnf]

theorem execLoop_sc_le (tools : String → Option ToolFn) (parse : String → Option Json)
    (script : Nat → Reply) (orders : Nat → List Nat) :
    ∀ (fuel sc : Nat) (st : LoopState),
      (execLoop tools parse script orders fuel sc st).2 ≤ sc + fuel := by
  intro fuel
  induction fuel with
  | zero => intro sc st; simp [execLoop]
  | succ f ih =>
    intro sc st
    by_cases h : st.memory.is_finished
    · simp only [execLoop, h, if_true]
      omega
    · simp only [execLoop, h, if_false, Bool.false_eq_true]
      have := ih (sc + 1) (runStep tools parse (script (sc + 1)) (orders (sc + 1)) (sc + 1) st)
      omega

/-- While the model keeps requesting tools the loop never marks the memory
finished, makes one model call per iteration, and consumes its whole
budget. -/
theorem execLoop_all_calls (tools : String → Option ToolFn) (parse : String → Option Json)
    (script : Nat → Reply) (orders : Nat → List Nat) :
    ∀ (fuel sc : Nat) (st : LoopState),
      (∀ n, sc < n → n ≤ sc + fuel → (script n).hasCalls = true) →
      st.memory.finished = false →
      (execLoop tools parse script orders fuel sc st).2 = sc + fuel ∧
      (execLoop tools parse script orders fuel sc st).1.memory.finished = false ∧
      (execLoop tools parse script orders fuel sc st).1.modelCalls = st.modelCalls + fuel := by
  intro fuel
  induction fuel with
  | zero =>
    intro sc st _ hf
    exact ⟨rfl, hf, rfl⟩
  | succ f ih =>
    intro sc st hs hf
    have hnf : st.memory.is_finished = false := hf
    simp only [execLoop, hnf, if_false, Bool.false_eq_true]
    obtain ⟨rc, tcs, hr, hne⟩ := reply_shape_of_hasCalls (hs (sc + 1) (by omega) (by omega))
    have hfin1 : (runStep tools parse (script (sc + 1)) (orders (sc + 1)) (sc + 1) st).memory.finished = false := by
      rw [hr]
      rw [runStep_tool_finished tools parse rc (orders (sc + 1)) (sc + 1) st hne]
      exact hf
    have hmc1 := runStep_modelCalls tools parse (script (sc + 1)) (orders (sc + 1)) (sc + 1) st
    have hrec := ih (sc + 1)
      (runStep tools parse (script (sc + 1)) (orders (sc + 1)) (sc + 1) st)
      (fun n h1 h2 => hs n (by omega) (by omega)) hfin1
    refine ⟨by omega, hrec.2.1, by omega⟩

/-- If the loop returns without exhausting its budget, the session is
finished and its trailing event is the non-error tail of the final-answer
branch. -/
theorem execLoop_early (tools : String → Option ToolFn) (parse : String → Option Json)
    (script : Nat → Reply) (orders : Nat → List Nat) :
    ∀ (fuel sc : Nat) (st : LoopState),
      st.memory.finished = false →
      (execLoop tools parse script orders fuel sc st).2 < sc + fuel →
      lastEventSafe (execLoop tools parse script orders fuel sc st).1 := by
  intro fuel
  induction fuel with
  | zero =>
    intro sc st _ hlt
    simp [execLoop] at hlt
  | succ f ih =>
    intro sc st hf hlt
    have hnf : st.memory.is_finished = false := hf
    simp only [execLoop, hnf, if_false, Bool.false_eq_true] at hlt ⊢
    by_cases hcall : (script (sc + 1)).hasCalls
    · obtain ⟨rc, tcs, hr, hne⟩ := reply_shape_of_hasCalls hcall
      have hfin1 : (runStep tools parse (script (sc + 1)) (orders (sc + 1)) (sc + 1) st).memory.finished = false := by
        rw [hr]
        rw [runStep_tool_finished tools parse rc (orders (sc + 1)) (sc + 1) st hne]
        exact hf
      exact ih (sc + 1) _ hfin1 (by omega)
    · have hcall' : (script (sc + 1)).hasCalls = false := by
        cases hb : (script (sc + 1)).hasCalls
        · rfl
        · exact absurd hb hcall
      have hfin1 := runStep_noCalls_finished tools parse (orders (sc + 1)) (sc + 1) st hcall'
      rw [execLoop_finished tools parse script orders f (sc + 1) _ hfin1]
      have hev := runStep_noCalls_events tools parse (orders (sc + 1)) (sc + 1) st hcall'
      by_cases hc : ((script (sc + 1)).content.getD "").isEmpty
      · refine ⟨finishLogEvent, ?_, by simp [finishLogEvent, logEvent]⟩
        rw [hev, hc]
        simp
      · refine ⟨reportEndEvent, ?_, by simp [reportEndEvent]⟩
        rw [hev, if_neg hc]
        have hre :
            st.events ++ thinkLogEvent (sc + 1) :: finishLogEvent ::
              (reportStartEvent ::
                (((script (sc + 1)).content.getD "").data.map fun c =>
                  tokenEvent (String.singleton c)) ++ [reportEndEvent]) =
            (st.events ++ thinkLogEvent (sc + 1) :: finishLogEvent :: reportStartEvent ::
              (((script (sc + 1)).content.getD "").data.map fun c =>
                tokenEvent (String.singleton c))) ++ [reportEndEvent] := by
          simp
        rw [hre, List.getLast?_concat]

/-! ## Claim theorems -/

/-- C9: for every event type and content, the wire-ready string returned by
the mirroring (cache-decorated) emitter `CacheSSEUtils.format_event` equals
the string returned by the plain emitter `SSEUtils.format_event` for the
same pair, and the outcome of the durable mirror write (`cacheOk`) neither
changes nor suppresses that return value. -/
theorem c9_cache_emitter_preserves_wire_string (cache : MongoSSECache) (cacheOk : Bool)
    (event_type : String) (content : Json) :
    (CacheSSEUtils.format_event cache cacheOk event_type content).1 =
      SSEUtils.format_event event_type content ∧
    (CacheSSEUtils.format_event cache false event_type content).1 =
      (CacheSSEUtils.format_event cache true event_type content).1 :=
  ⟨rfl, rfl⟩

/-- C10: for every role, `add_message` with a `none` content appends a
message dict with no `"content"` key at all (never an empty string), and
likewise the `"tool_calls"` and `"tool_call_id"` keys are present exactly
when the corresponding argument is not `None` — in both the in-process
(`AgentMemory`) and the durable (`MongoAgentMemory`) backend, which append
the same dict (the latter to both its cache and its store). -/
theorem c10_none_arguments_omit_keys (am : AgentMemory) (mm : MongoAgentMemory)
    (role : String) (content : Option String) (tool_calls : Option (List ToolCall))
    (tool_call_id : Option String) :
    (AgentMemory.add_message am role content tool_calls tool_call_id).messages =
      am.messages ++ [buildMessage role content tool_calls tool_call_id] ∧
    (MongoAgentMemory.add_message mm role content tool_calls tool_call_id).cached =
      mm.cached ++ [buildMessage role content tool_calls tool_call_id] ∧
    (MongoAgentMemory.add_message mm role content tool_calls tool_call_id).store =
      mm.store ++ [buildMessage role content tool_calls tool_call_id] ∧
    hasKey (buildMessage role content tool_calls tool_call_id) "content" = content.isSome ∧
    hasKey (buildMessage role content tool_calls tool_call_id) "tool_calls" = tool_calls.isSome ∧
    hasKey (buildMessage role content tool_calls tool_call_id) "tool_call_id" =
      tool_call_id.isSome := by
  refine ⟨rfl, rfl, rfl, ?_, ?_, ?_⟩ <;>
    cases content <;> cases tool_calls <;> cases tool_call_id <;> rfl

/-- C5 counterexample: an envelope whose `corrected_text` key triggers the
specialized audio events is serialized with that reserved key still
present, refuting the claim that each recognized reserved key which
triggered a client event is removed before serialization. -/
theorem c5_cex_corrected_text_not_removed :
    (frontendAdapt [("corrected_text", .str "hi")]).1 =
      [audioStartEvent, audioChunkEvent 'h', audioChunkEvent 'i'] ∧
    lookupField (frontendAdapt [("corrected_text", .str "hi")]).2 "corrected_text" =
      some (.str "hi") :=
  ⟨rfl, rfl⟩

/-- C5 (amended): the frontend adapter removes exactly the `preview_images`
key from a successful result envelope before it is serialized into the
tool-role message — the incrementally-revealed `corrected_text` field and
the `violation_check` substructure trigger events but are kept — and no
other field of the envelope is altered. -/
theorem c5_adapter_removes_only_preview_images (d : Dict) :
    (frontendAdapt d).2 = eraseKey d "preview_images" := by
  unfold frontendAdapt
  cases h : lookupField d "preview_images" with
  | some v => simp [h]
  | none =>
    simp only [h]
    have hf : ∀ p ∈ d, ¬(p.1 == "preview_images") = true := by
      have hn : d.find? (fun p => p.1 == "preview_images") = none := by
        unfold lookupField at h
        exact Option.map_eq_none'.mp h
      exact List.find?_eq_none.mp hn
    unfold eraseKey
    refine Eq.symm (List.filter_eq_self.mpr ?_)
    intro p hp
    simpa using hf p hp

/-- C2 counterexample: an assistant message requesting exactly one tool
call whose argument blob does not parse yields zero tool-role messages in
the OBSERVING phase, not one per requested call. -/
theorem c2_cex_unparseable_call_breaks_adjacency :
    (actObserve agent0.toolsMap parse0 [tcBad] []).2 = [] ∧ [tcBad].length = 1 :=
  ⟨rfl, rfl⟩

/-- C2 (amended): for every assistant message with a non-empty `tool_calls`
list, the OBSERVING phase appends exactly one tool-role message per
requested call whose argument blob parses (calls whose blob fails to parse
are skipped and get none), in the order the calls appeared in the assistant
message and with the `tool_call_id` of the originating call — for every
completion order in which all scheduled tasks finish, so independently of
which invocation completed first. -/
theorem c2_tool_messages_in_request_order (tools : String → Option ToolFn)
    (parse : String → Option Json) (rc : Option String) (tcs : List ToolCall)
    (order : List Nat) (n : Nat) (st : LoopState)
    (hne : tcs ≠ []) (hord : covers order (validCount tools parse tcs)) :
    (runStep tools parse ⟨rc, some tcs⟩ order n st).memory.cached =
      st.memory.cached ++ buildMessage "assistant" rc (some tcs) none ::
        tcs.filterMap (expectedToolMsg tools parse) ∧
    (∀ m ∈ tcs.filterMap (expectedToolMsg tools parse),
      lookupField m "role" = some (.str "tool")) ∧
    (∀ tc ∈ tcs, ∀ m, expectedToolMsg tools parse tc = some m →
      lookupField m "tool_call_id" = some (.str tc.id)) := by
  refine ⟨?_, ?_, ?_⟩
  · rw [runStep_tool_cached tools parse rc order n st hne, actObserve_msgs hord]
  · intro m hm
    rw [List.mem_filterMap] at hm
    obtain ⟨tc, _, hexp⟩ := hm
    exact expected_role hexp
  · intro tc _ m hexp
    exact expected_tool_call_id hexp

/-- C2 witness: two requested calls whose tasks complete in reverse order
(completion order `[1, 0]`) still produce the two tool-role messages in
request order `id2`, `id1`. -/
theorem c2_tool_messages_in_request_order_witness :
    (runStep agent0.toolsMap parse0 ⟨none, some [tcBoom, tcGood]⟩ [1, 0] 1 st0).memory.cached =
      [buildMessage "assistant" none (some [tcBoom, tcGood]) none,
       buildMessage "tool" (some (errorEnvelope "boom failed")) none (some "id2"),
       buildMessage "tool" (some (jsonDumps (.obj [("answer", .num 42)]))) none (some "id1")] :=
  (c2_tool_messages_in_request_order agent0.toolsMap parse0 none [tcBoom, tcGood]
    [1, 0] 1 st0 (by decide) (by decide)).1

/-- C1 counterexample: a requested call whose argument blob fails to parse
is not surfaced to the model as a tool-role error envelope — the step
appends only the assistant message (no tool-role message with the matching
`tool_call_id` exists) and merely emits an error event. -/
theorem c1_cex_parse_failure_appends_no_tool_message :
    (runStep agent0.toolsMap parse0 ⟨none, some [tcBad]⟩ [] 1 st0).memory.cached =
      [buildMessage "assistant" none (some [tcBad]) none] ∧
    (runStep agent0.toolsMap parse0 ⟨none, some [tcBad]⟩ [] 1 st0).events =
      [thinkLogEvent 1, parallelLogEvent 1, parseFailEvent "BAD"] :=
  ⟨rfl, rfl⟩

/-- C1 (amended): a requested call whose argument blob fails to parse is
never invoked and is dropped by `continue`: an error-type event is emitted,
the call contributes no tool-role message (no appended message carries its
`tool_call_id`), the other calls are processed normally, and the session
continues unfinished into the next THINKING phase. -/
theorem c1_parse_failure_skips_call (tools : String → Option ToolFn)
    (parse : String → Option Json) (rc : Option String) (tcs : List ToolCall)
    (order : List Nat) (n : Nat) (st : LoopState) (tc : ToolCall)
    (hmem : tc ∈ tcs) (hp : parse tc.arguments = none)
    (hinj : ∀ tc' ∈ tcs, tc'.id = tc.id → tc' = tc)
    (hord : covers order (validCount tools parse tcs)) :
    parseFailEvent tc.arguments ∈ (runStep tools parse ⟨rc, some tcs⟩ order n st).events ∧
    (runStep tools parse ⟨rc, some tcs⟩ order n st).memory.cached =
      st.memory.cached ++ buildMessage "assistant" rc (some tcs) none ::
        tcs.filterMap (expectedToolMsg tools parse) ∧
    expectedToolMsg tools parse tc = none ∧
    (∀ m ∈ tcs.filterMap (expectedToolMsg tools parse),
      lookupField m "tool_call_id" ≠ some (.str tc.id)) ∧
    (runStep tools parse ⟨rc, some tcs⟩ order n st).memory.finished = st.memory.finished := by
  have hne : tcs ≠ [] := by
    intro h
    rw [h] at hmem
    cases hmem
  refine ⟨?_, ?_, ?_, ?_, ?_⟩
  · rw [runStep_tool_events tools parse rc order n st hne]
    have h1 : parseFailEvent tc.arguments ∈ (actObserve tools parse tcs order).1 :=
      mem_actObserve_events (parseFail_mem_prepare tools parse tcs tc hmem hp)
    exact List.mem_append_right _ (List.mem_cons_of_mem _
      (List.mem_append_right _ (List.mem_cons_of_mem _ h1)))
  · rw [runStep_tool_cached tools parse rc order n st hne, actObserve_msgs hord]
  · simp [expectedToolMsg, hp]
  · intro m hm heq
    rw [List.mem_filterMap] at hm
    obtain ⟨tc', hmem', hexp⟩ := hm
    have hid := expected_tool_call_id hexp
    rw [heq] at hid
    have hideq : tc'.id = tc.id := by
      injection hid with h1
      injection h1 with h2
      exact h2.symm
    have : tc' = tc := hinj tc' hmem' hideq
    subst this
    simp [expectedToolMsg, hp] at hexp
  · exact runStep_tool_finished tools parse rc order n st hne

/-- C1 witness: in a two-call step whose second call has an unparseable
blob, the step appends the assistant message and only the first call's
tool-role message, and continues unfinished. -/
theorem c1_parse_failure_skips_call_witness :
    (runStep agent0.toolsMap parse0 ⟨none, some [tcGood, tcBad]⟩ [0] 1 st0).memory.cached =
      [buildMessage "assistant" none (some [tcGood, tcBad]) none,
       buildMessage "tool" (some (jsonDumps (.obj [("answer", .num 42)]))) none (some "id1")] ∧
    (runStep agent0.toolsMap parse0 ⟨none, some [tcGood, tcBad]⟩ [0] 1 st0).memory.finished =
      false := by
  have h := c1_parse_failure_skips_call agent0.toolsMap parse0 none [tcGood, tcBad]
    [0] 1 st0 tcBad (by decide) (by decide) (by decide) (by decide)
  exact ⟨h.2.1, h.2.2.2.2⟩

/-- C4: when one tool invocation raises, the exception is captured for that
call alone and converted into a `{"error": …}` tool-role message; every
sibling call still produces its normal tool-role message (one message per
parsed call, in request order), and the step leaves the session unfinished
so the loop proceeds to the next THINKING phase instead of aborting. -/
theorem c4_tool_exception_is_isolated (tools : String → Option ToolFn)
    (parse : String → Option Json) (rc : Option String) (tcs : List ToolCall)
    (order : List Nat) (n : Nat) (st : LoopState) (tc : ToolCall) (args : Json)
    (f : ToolFn) (e : String)
    (hmem : tc ∈ tcs) (hp : parse tc.arguments = some args)
    (htool : tools tc.name = some f) (hrun : f args = .error e)
    (hord : covers order (validCount tools parse tcs)) :
    (runStep tools parse ⟨rc, some tcs⟩ order n st).memory.cached =
      st.memory.cached ++ buildMessage "assistant" rc (some tcs) none ::
        tcs.filterMap (expectedToolMsg tools parse) ∧
    expectedToolMsg tools parse tc =
      some (buildMessage "tool" (some (errorEnvelope e)) none (some tc.id)) ∧
    (runStep tools parse ⟨rc, some tcs⟩ order n st).memory.finished = st.memory.finished := by
  have hne : tcs ≠ [] := by
    intro h
    rw [h] at hmem
    cases hmem
  refine ⟨?_, ?_, ?_⟩
  · rw [runStep_tool_cached tools parse rc order n st hne, actObserve_msgs hord]
  · simp [expectedToolMsg, hp, htool, hrun]
  · exact runStep_tool_finished tools parse rc order n st hne

/-- C4 witness: three requested calls where the second raises — the first
and third still produce their normal tool-role messages, the second gets
the error envelope, all in request order, and the session stays
unfinished. -/
theorem c4_tool_exception_is_isolated_witness :
    (runStep agent0.toolsMap parse0 ⟨none, some [tcGood, tcBoom, tcGood2]⟩ [2, 0, 1] 1
        st0).memory.cached =
      [buildMessage "assistant" none (some [tcGood, tcBoom, tcGood2]) none,
       buildMessage "tool" (some (jsonDumps (.obj [("answer", .num 42)]))) none (some "id1"),
       buildMessage "tool" (some (errorEnvelope "boom failed")) none (some "id2"),
       buildMessage "tool" (some (jsonDumps (.obj [("answer", .num 42)]))) none (some "id3")] ∧
    (runStep agent0.toolsMap parse0 ⟨none, some [tcGood, tcBoom, tcGood2]⟩ [2, 0, 1] 1
        st0).memory.finished = false := by
  have h := c4_tool_exception_is_isolated agent0.toolsMap parse0 none
    [tcGood, tcBoom, tcGood2] [2, 0, 1] 1 st0 tcBoom (.obj []) boomTool "boom failed"
    (by decide) rfl rfl rfl (by decide)
  exact ⟨h.1, h.2.2⟩

/-- C8: a requested call to a name absent from the tool registry appends
exactly one tool-role message whose content is
`json.dumps({"error": "Tool <name> not found"})` with the matching
`tool_call_id`, emits exactly one error-type event (all other events of the
step are logs), and leaves the session unfinished so the loop proceeds
normally to the next THINKING phase. -/
theorem c8_unknown_tool_error_envelope (tools : String → Option ToolFn)
    (parse : String → Option Json) (order : List Nat) (n : Nat) (st : LoopState)
    (tc : ToolCall) (args : Json)
    (hp : parse tc.arguments = some args) (htool : tools tc.name = none) :
    (runStep tools parse ⟨none, some [tc]⟩ order n st).memory.cached =
      st.memory.cached ++
        [buildMessage "assistant" none (some [tc]) none,
         buildMessage "tool"
           (some (errorEnvelope ("Tool " ++ tc.name ++ " not found"))) none (some tc.id)] ∧
    (runStep tools parse ⟨none, some [tc]⟩ order n st).events =
      st.events ++
        [thinkLogEvent n, parallelLogEvent 1, logEvent (startLogMsg tc.name args),
         notFoundEvent ("Tool " ++ tc.name ++ " not found")] ∧
    (runStep tools parse ⟨none, some [tc]⟩ order n st).memory.finished =
      st.memory.finished := by
  have hne : [tc] ≠ ([] : List ToolCall) := by simp
  refine ⟨?_, ?_, ?_⟩
  · rw [runStep_tool_cached tools parse none order n st hne]
    simp [actObserve, prepareCalls, processMetas, hp, htool]
  · rw [runStep_tool_events tools parse none order n st hne]
    simp [actObserve, prepareCalls, processMetas, hp, htool, contentTokEvents]
  · exact runStep_tool_finished tools parse none order n st hne

/-- C8 witness: the scenario with the unregistered name `"foo"` — one
tool-role message with content `{"error": "Tool foo not found"}` and
matching id `id4`, one error-type event, and the session continues. -/
theorem c8_unknown_tool_error_envelope_witness :
    (runStep agent0.toolsMap parse0 ⟨none, some [tcFoo]⟩ [] 1 st0).memory.cached =
      [buildMessage "assistant" none (some [tcFoo]) none,
       buildMessage "tool" (some "\x7b\"error\": \"Tool foo not found\"\x7d") none
         (some "id4")] ∧
    (runStep agent0.toolsMap parse0 ⟨none, some [tcFoo]⟩ [] 1 st0).events =
      [thinkLogEvent 1, parallelLogEvent 1, logEvent "🚀 [启动] 工具: foo",
       notFoundEvent "Tool foo not found"] ∧
    (runStep agent0.toolsMap parse0 ⟨none, some [tcFoo]⟩ [] 1 st0).memory.finished = false := by
  have h := c8_unknown_tool_error_envelope agent0.toolsMap parse0 [] 1 st0 tcFoo
    (.obj []) rfl rfl
  exact ⟨h.1, h.2.1, h.2.2⟩

/-- C7 counterexample: a model reply with empty `tool_calls` and empty
content finishes the session but emits no `final_report_start` event at
all, refuting the claim for every content `C`. -/
theorem c7_cex_empty_final_content_emits_no_markers :
    (agent0.execute parse0 emptyFinalScript zeroOrders "SP" "f.png" "image").1.memory.finished =
      true ∧
    ((agent0.execute parse0 emptyFinalScript zeroOrders "SP" "f.png" "image").1.events.filter
      fun e => e.type == "final_report_start") = [] :=
  ⟨rfl, rfl⟩

/-- C7 (amended): for every model reply with empty `tool_calls` and
non-empty content `C` on the first turn, the loop appends no message beyond
the assistant one, marks the memory finished with `C`, and emits — after
the completion log — exactly one `final_report_start` event, one token
event per character of `C` in order, and one `final_report_end` event;
`is_finished()` is then true and no second THINKING phase is entered. -/
theorem c7_final_answer_streamed (agent : AuditAgent) (parse : String → Option Json)
    (script : Nat → Reply) (orders : Nat → List Nat) (sys fp ft : String) (C : String)
    (hs : script 1 = ⟨some C, none⟩) (hne : C ≠ "") :
    (agent.execute parse script orders sys fp ft).2 = 1 ∧
    (agent.execute parse script orders sys fp ft).1.modelCalls = 1 ∧
    (agent.execute parse script orders sys fp ft).1.memory.finished = true ∧
    (agent.execute parse script orders sys fp ft).1.memory.finalContent = C ∧
    (agent.execute parse script orders sys fp ft).1.memory.cached =
      [buildMessage "system" (some sys) none none,
       buildMessage "user"
         (some ("请开始审核该文件。文件路径: " ++ fp ++ ", 类型: " ++ ft)) none none,
       buildMessage "assistant" (some C) none none] ∧
    (agent.execute parse script orders sys fp ft).1.events =
      [startupLogEvent agent.toolCount, thinkLogEvent 1, finishLogEvent, reportStartEvent] ++
        (C.data.map fun c => tokenEvent (String.singleton c)) ++ [reportEndEvent] := by
  have h0 : (initialState agent sys fp ft).memory.finished = false := rfl
  have hC : C.isEmpty = false := by
    cases hb : C.isEmpty
    · rfl
    · exact absurd ((String.isEmpty_iff C).mp hb) hne
  have hfin1 : (runStep agent.toolsMap parse ⟨some C, none⟩ (orders 1) 1
      (initialState agent sys fp ft)).memory.finished = true :=
    runStep_final_finished agent.toolsMap parse (some C) (orders 1) 1
      (initialState agent sys fp ft)
  have hexec : agent.execute parse script orders sys fp ft =
      (runStep agent.toolsMap parse ⟨some C, none⟩ (orders 1) 1
        (initialState agent sys fp ft), 1) := by
    unfold AuditAgent.execute
    rw [show maxSteps = 9 + 1 from rfl]
    rw [execLoop_succ agent.toolsMap parse script orders 9 0 _ h0]
    simp only [Nat.zero_add]
    rw [hs]
    rw [execLoop_finished agent.toolsMap parse script orders 9 1 _ hfin1]
    rw [if_neg (by omega)]
  rw [hexec]
  refine ⟨rfl, ?_, hfin1, ?_, ?_, ?_⟩
  · rw [runStep_modelCalls]
    rfl
  · exact runStep_final_finalContent agent.toolsMap parse (some C) (orders 1) 1
      (initialState agent sys fp ft)
  · rw [runStep_final_cached]
    rfl
  · rw [runStep_final_events]
    simp only [Option.getD_some, hC, Bool.false_eq_true, if_false]
    simp [initialState]

/-- C7 witness: the scenario with content `"No violation found."`. -/
theorem c7_final_answer_streamed_witness :
    (agent0.execute parse0 finalScript zeroOrders "SP" "f.png" "image").2 = 1 ∧
    (agent0.execute parse0 finalScript zeroOrders "SP" "f.png" "image").1.memory.finished =
      true ∧
    (agent0.execute parse0 finalScript zeroOrders "SP" "f.png" "image").1.events =
      [startupLogEvent agent0.toolCount, thinkLogEvent 1, finishLogEvent, reportStartEvent] ++
        ("No violation found.".data.map fun c => tokenEvent (String.singleton c)) ++
          [reportEndEvent] := by
  have h := c7_final_answer_streamed agent0 parse0 finalScript zeroOrders "SP" "f.png"
    "image" "No violation found." rfl (by decide)
  exact ⟨h.1, h.2.2.1, h.2.2.2.2.2⟩

/-- C6: with `max_steps = 10`, for every model that keeps requesting tool
calls (a non-empty `tool_calls` list on each of the first ten turns), the
loop performs exactly 10 THINKING phases (model calls), terminates with the
step-budget warning as its final event, and never enters an 11th THINKING
phase. -/
theorem c6_exactly_ten_thinking_phases (agent : AuditAgent) (parse : String → Option Json)
    (script : Nat → Reply) (orders : Nat → List Nat) (sys fp ft : String)
    (h : ∀ n, 1 ≤ n → n ≤ maxSteps → (script n).hasCalls = true) :
    (agent.execute parse script orders sys fp ft).2 = 10 ∧
    (agent.execute parse script orders sys fp ft).1.modelCalls = 10 ∧
    (agent.execute parse script orders sys fp ft).1.memory.finished = false ∧
    (agent.execute parse script orders sys fp ft).1.events.getLast? = some warnEvent := by
  have h0 : (initialState agent sys fp ft).memory.finished = false := rfl
  have hall := execLoop_all_calls agent.toolsMap parse script orders maxSteps 0
    (initialState agent sys fp ft) (fun n h1 h2 => h n (by omega) (by omega)) h0
  have hmc0 : (initialState agent sys fp ft).modelCalls = 0 := rfl
  have hms : maxSteps = 10 := rfl
  obtain ⟨ha, hb, hc⟩ := hall
  unfold AuditAgent.execute
  rw [if_pos (by omega)]
  refine ⟨by omega, ?_, by simpa [emit] using hb, ?_⟩
  · simp only [emit]
    omega
  · simp only [emit]
    rw [List.getLast?_concat]

/-- C6 witness: the constant tool-requesting model. -/
theorem c6_exactly_ten_thinking_phases_witness :
    (agent0.execute parse0 toolScript zeroOrders "SP" "f.png" "image").2 = 10 ∧
    (agent0.execute parse0 toolScript zeroOrders "SP" "f.png" "image").1.modelCalls = 10 ∧
    (agent0.execute parse0 toolScript zeroOrders "SP" "f.png" "image").1.memory.finished =
      false ∧
    (agent0.execute parse0 toolScript zeroOrders "SP" "f.png"
        "image").1.events.getLast? = some warnEvent :=
  c6_exactly_ten_thinking_phases agent0 parse0 toolScript zeroOrders "SP" "f.png" "image"
    (fun _ _ _ => rfl)

/-- C3 counterexample: a session that receives its final answer exactly on
the `max_steps`-th step (tool calls on steps 1–9, final answer on step 10)
is finished, yet the step-budget warning is still emitted as the terminal
event — refuting "if and only if … while the session is still
unfinished". -/
theorem c3_cex_finishing_on_last_step_still_warns :
    (agent0.execute parse0 lateFinishScript zeroOrders "SP" "f.png" "image").1.memory.finished =
      true ∧
    (agent0.execute parse0 lateFinishScript zeroOrders "SP" "f.png"
        "image").1.events.getLast? = some warnEvent ∧
    (agent0.execute parse0 lateFinishScript zeroOrders "SP" "f.png" "image").2 = 10 := by
  exact ⟨rfl, rfl, rfl⟩

/-- C3 (amended): the terminal step-budget warning is emitted (as the final
event of the session) if and only if `step_count` reaches `max_steps` —
whether or not the session finished; in particular a session whose final
answer arrives on the `max_steps`-th step still emits the warning. -/
theorem c3_warning_iff_budget_reached (agent : AuditAgent) (parse : String → Option Json)
    (script : Nat → Reply) (orders : Nat → List Nat) (sys fp ft : String) :
    (agent.execute parse script orders sys fp ft).1.events.getLast? = some warnEvent ↔
      maxSteps ≤ (agent.execute parse script orders sys fp ft).2 := by
  unfold AuditAgent.execute
  by_cases hcond : maxSteps ≤
      (execLoop agent.toolsMap parse script orders maxSteps 0
        (initialState agent sys fp ft)).2
  · rw [if_pos hcond]
    constructor
    · intro _
      exact hcond
    · intro _
      simp only [emit]
      rw [List.getLast?_concat]
  · rw [if_neg hcond]
    constructor
    · intro hlast
      exfalso
      obtain ⟨e, he, hnet⟩ := execLoop_early agent.toolsMap parse script orders maxSteps 0
        (initialState agent sys fp ft) rfl (by omega)
      rw [he] at hlast
      injection hlast with h1
      rw [h1] at hnet
      exact hnet rfl
    · intro hge
      exact absurd hge hcond

end JudgeAgent
